import Mathlib

/-!
Shallow embedding of the resource-to-graph transformation engine of
`kustomize-dot` (package `pkg/parser`, file `parser.go`).

Strings are Lean strings.  The Go function `strings.ToLower` is modelled by its
ASCII case mapping (`Char.toLower` of Lean core is letter-for-letter the
same function); all configured values and record fields exercised by the
claims are ASCII.  Go maps are modelled as association lists with
replace-on-insert semantics (only lookup and insert are used by the
code).  Go slices are Lean lists; `append` is `++ [x]`.
-/

namespace KustomizeDot

/-- Model of `strings.ToLower` (ASCII fragment): lower-case every
character of the string. -/
def lower (s : String) : String :=
  ⟨s.data.map Char.toLower⟩

theorem char_toNat_ofNat_of_lt (n : Nat) (h : n < 55296) :
    (Char.ofNat n).toNat = n := by
  have hv : n.isValidChar := Or.inl h
  rw [Char.ofNat, dif_pos hv]
  simp [Char.ofNatAux, Char.toNat, UInt32.toNat, BitVec.toNat_ofNatLt]

theorem char_toLower_idem (c : Char) :
    (Char.toLower c).toLower = c.toLower := by
  by_cases h : c.toNat ≥ 65 ∧ c.toNat ≤ 90
  · have h2 : c.toLower = Char.ofNat (c.toNat + 32) := by
      simp only [Char.toLower]
      rw [if_pos h]
    have h1 : (Char.ofNat (c.toNat + 32)).toNat = c.toNat + 32 :=
      char_toNat_ofNat_of_lt _ (by omega)
    rw [h2]
    simp only [Char.toLower, h1]
    rw [if_neg (by omega)]
  · have h2 : c.toLower = c := by
      simp only [Char.toLower]
      rw [if_neg h]
    rw [h2]
    exact h2

theorem lower_idem (s : String) : lower (lower s) = lower s := by
  apply congrArg String.mk
  show (s.data.map Char.toLower).map Char.toLower = s.data.map Char.toLower
  rw [List.map_map]
  exact List.map_congr_left fun c _ => char_toLower_idem c

/-- Is the first character list an initial segment of the second? -/
def isPfxOf : List Char → List Char → Bool
  | [], _ => true
  | _ :: _, [] => false
  | a :: as, b :: bs => a == b && isPfxOf as bs

/-- Model of the Go function `strings.TrimPrefix`: drop `pre` from the front of `s`
when it is there, otherwise return `s` unchanged. -/
def trimPfx (s pre : String) : String :=
  if isPfxOf pre.data s.data then ⟨s.data.drop pre.data.length⟩ else s

/-- Constant `notClonedPrefix` of `parser.go`: marker added by kustomize to origin
paths, stripped when generating the graph. -/
def notClonedMarker : String := "notCloned/"

/-- Association list standing for a Go `map[string]string`; the code only
ever inserts (`m[k] = v`) and looks up. -/
abbrev AttrMap := List (String × String)

/-- Go `m[k] = v`: replace the binding when the key is present, otherwise
add it. -/
def mapInsert (m : AttrMap) (k v : String) : AttrMap :=
  match m with
  | [] => [(k, v)]
  | (k', v') :: rest =>
    if k' == k then (k, v) :: rest else (k', v') :: mapInsert rest k v

/-- Go `v, ok := m[k]`. -/
def mapLookup (m : AttrMap) (k : String) : Option String :=
  match m with
  | [] => none
  | (k', v') :: rest => if k' == k then some v' else mapLookup rest k

/-- Field `ConfiguredBy` of `resource.Origin` (a `kyaml` resid): the
generator or transformer that produced a resource. -/
structure ConfiguredBy where
  apiVersion : String
  kind : String
deriving DecidableEq

/-- Type `resource.Origin`: provenance of a resource (file path, remote
repo + ref, or generator identity). -/
structure Origin where
  path : String
  repo : String
  ref : String
  configuredIn : String
  configuredBy : ConfiguredBy
deriving DecidableEq

/-- Type `resource.Resource` as seen by the parser: the getters `GetKind`,
`GetNamespace` and `GetName`, and `GetOrigin`, which can fail (an
`error`), yield no origin (`nil`), or yield an origin. -/
structure Resource where
  kind : String
  ns : String
  name : String
  getOrigin : Except String (Option Origin)

/-- Type `LayoutDirection` is a Go string type; the `String()` method is the
identity. -/
abbrev LayoutDirection := String

def LayoutDirectionTB : LayoutDirection := "TB"

def LayoutDirectionBT : LayoutDirection := "BT"

def LayoutDirectionLR : LayoutDirection := "LR"

def LayoutDirectionRL : LayoutDirection := "RL"

/-- Struct `Parser` of `parser.go`. -/
structure Parser where
  highlightKindMap : AttrMap
  highlightNamespaceMap : AttrMap
  layoutDirection : LayoutDirection
  dropResourceKinds : List String
  dropNamespaces : List String
  keepResourceKinds : List String
  keepNamespaces : List String

/-- Type `Option` of `parser.go`: a function configuring the `Parser`
(renamed, since `Option` is taken in Lean). -/
def ParserOption := Parser → Parser

/-- Function `New`: the defaults of `parser.go`, then the options applied in
order. -/
def New (opts : List ParserOption) : Parser :=
  opts.foldl (fun p opt => opt p)
    { highlightKindMap := []
      highlightNamespaceMap := []
      layoutDirection := LayoutDirectionLR
      dropResourceKinds := []
      dropNamespaces := []
      keepResourceKinds := []
      keepNamespaces := [] }

/-- Function `WithHighlightKind` of `parser.go`. -/
def WithHighlightKind (kind color : String) : ParserOption :=
  fun p => { p with highlightKindMap := mapInsert p.highlightKindMap (lower kind) color }

/-- Function `WithHighlightNamespace` of `parser.go`. -/
def WithHighlightNamespace (ns color : String) : ParserOption :=
  fun p => { p with highlightNamespaceMap := mapInsert p.highlightNamespaceMap (lower ns) color }

/-- Function `WithLayoutDirection` of `parser.go`. -/
def WithLayoutDirection (layout : LayoutDirection) : ParserOption :=
  fun p => { p with layoutDirection := layout }

/-- Function `WithDropKind` of `parser.go`. -/
def WithDropKind (kind : String) : ParserOption :=
  fun p => { p with dropResourceKinds := p.dropResourceKinds ++ [lower kind] }

/-- Function `WithKeepKind` of `parser.go`. -/
def WithKeepKind (kind : String) : ParserOption :=
  fun p => { p with keepResourceKinds := p.keepResourceKinds ++ [lower kind] }

/-- Function `WithDropNamespace` of `parser.go`. -/
def WithDropNamespace (ns : String) : ParserOption :=
  fun p => { p with dropNamespaces := p.dropNamespaces ++ [lower ns] }

/-- Function `WithKeepNamespace` of `parser.go`. -/
def WithKeepNamespace (ns : String) : ParserOption :=
  fun p => { p with keepNamespaces := p.keepNamespaces ++ [lower ns] }

/-- Function `shouldDropResource` of `parser.go`, line for line: the two drop
loops (a loop that returns on the first `==` hit is `List.contains`),
the two keep scans, then the `switch`. -/
def shouldDropResource (p : Parser) (r : Resource) : Bool :=
  let kind := lower r.kind
  let ns := lower r.ns
  if p.dropNamespaces.contains ns then true
  else if p.dropResourceKinds.contains kind then true
  else
    let keepNamespaceIsSet := !p.keepNamespaces.isEmpty
    let keepKindIsSet := !p.keepResourceKinds.isEmpty
    let foundKeepNamespace := p.keepNamespaces.contains ns
    let foundKeepKind := p.keepResourceKinds.contains kind
    if keepNamespaceIsSet && !foundKeepNamespace then true
    else if keepNamespaceIsSet && keepKindIsSet && foundKeepNamespace && !foundKeepKind then true
    else if keepKindIsSet && !foundKeepKind then true
    else false

/-- Function `applyHighlights` of `parser.go`: namespace colour first, kind colour
second, each writing `color` and `fillcolor`; returns the updated
attribute map of the vertex (the Go code mutates it in place). -/
def applyHighlights (p : Parser) (attrs : AttrMap) (r : Resource) : AttrMap :=
  let ns := lower r.ns
  let kind := lower r.kind
  let attrs1 :=
    match mapLookup p.highlightNamespaceMap ns with
    | some namespaceColor =>
      mapInsert (mapInsert attrs "color" namespaceColor) "fillcolor" namespaceColor
    | none => attrs
  match mapLookup p.highlightKindMap kind with
  | some kindColor =>
    mapInsert (mapInsert attrs1 "color" kindColor) "fillcolor" kindColor
  | none => attrs1

/-- Function `vertexNameFromResource` of `parser.go`. -/
def vertexNameFromResource (p : Parser) (r : Resource) : String :=
  let ns := r.ns
  let name := r.name
  let kind := lower r.kind
  if ns == "" then kind ++ "/" ++ name
  else ns ++ "/" ++ kind ++ "/" ++ name

/-- Function `vertexNameFromOrigin` of `parser.go`: the path is stripped of the
`notCloned/` marker up front, then the `switch`. -/
def vertexNameFromOrigin (p : Parser) (origin : Origin) : String :=
  let path := trimPfx origin.path notClonedMarker
  if origin.configuredIn != "" then origin.configuredIn
  else if origin.repo != "" then path
  else path

/-- Function `edgeLabelFromOrigin` of `parser.go`. -/
def edgeLabelFromOrigin (p : Parser) (origin : Origin) : String :=
  if origin.configuredIn != "" then
    origin.configuredBy.apiVersion ++ "/" ++ origin.configuredBy.kind
  else if origin.repo != "" then
    if origin.ref != "" then origin.repo ++ " (ref " ++ origin.ref ++ ")"
    else origin.repo
  else ""

/-- The directed `graph.Graph[string]` as used by `Parse`: vertices keyed
by name with their dot attributes, edges keyed by (from, to) with their
dot attributes, and the graph-level dot attributes.  Insertion order is
kept; adding an existing vertex or edge is a no-op that returns the
existing one. -/
structure Graph where
  vertices : List (String × AttrMap)
  edges : List ((String × String) × AttrMap)
  attrs : AttrMap
deriving DecidableEq

/-- Empty directed graph, as built by `graph.New[string](graph.KindDirected)`. -/
def emptyGraph : Graph :=
  { vertices := [], edges := [], attrs := [] }

/-- Names of the vertices of the graph. -/
def Graph.vertexNames (g : Graph) : List String :=
  g.vertices.map (fun v => v.1)

/-- Model of `g.AddVertex(name)`: adds the vertex when it is not already there. -/
def addVertex (g : Graph) (name : String) : Graph :=
  if g.vertices.any (fun v => v.1 == name) then g
  else { g with vertices := g.vertices ++ [(name, [])] }

/-- Mutation of the dot attributes of vertex `name` (the Go code holds a
pointer into the graph and updates the attribute map in place). -/
def updateVertex (g : Graph) (name : String) (f : AttrMap → AttrMap) : Graph :=
  { g with
    vertices := g.vertices.map (fun v => if v.1 == name then (v.1, f v.2) else v) }

/-- Model of `e := g.AddEdge(u, v); e.DotAttributes["label"] = label`: the edge is
added when absent, and its `label` attribute written. -/
def edgeUpsert (es : List ((String × String) × AttrMap)) (u v label : String) :
    List ((String × String) × AttrMap) :=
  match es with
  | [] => [((u, v), [("label", label)])]
  | (key, attrs) :: rest =>
    if key == (u, v) then (key, mapInsert attrs "label" label) :: rest
    else (key, attrs) :: edgeUpsert rest u v label

/-- The edge step of `Parse` on the edge list only. -/
def addEdgeWithLabel (g : Graph) (u v label : String) : Graph :=
  { g with edges := edgeUpsert g.edges u v label }

/-- Body of the `for` loop of `Parse` over the resources, threading the
graph; a failing `GetOrigin` aborts with the error. -/
def parseLoop (p : Parser) : List Resource → Graph → Except String Graph
  | [], g => .ok g
  | r :: rest, g =>
    if shouldDropResource p r then parseLoop p rest g
    else
      let uName := vertexNameFromResource p r
      let g1 := updateVertex (addVertex g uName) uName
        (fun attrs => applyHighlights p attrs r)
      match r.getOrigin with
      | .error e => .error e
      | .ok none => parseLoop p rest g1
      | .ok (some origin) =>
        let vName := vertexNameFromOrigin p origin
        let g2 := addVertex g1 vName
        let label := edgeLabelFromOrigin p origin
        parseLoop p rest (addEdgeWithLabel g2 uName vName label)

/-- Function `Parse` of `parser.go`: run the loop from the empty directed graph,
then set the graph-level `rankdir` attribute; on a `GetOrigin` failure
the error is returned and no graph (`nil`). -/
def Parse (p : Parser) (resources : List Resource) : Except String Graph :=
  match parseLoop p resources emptyGraph with
  | .error e => .error e
  | .ok g => .ok { g with attrs := mapInsert g.attrs "rankdir" p.layoutDirection }

/-! ### Helper lemmas on the map and graph models -/

theorem mapLookup_mapInsert_self (m : AttrMap) (k v : String) :
    mapLookup (mapInsert m k v) k = some v := by
  induction m with
  | nil => simp [mapInsert, mapLookup]
  | cons hd tl ih =>
    obtain ⟨k', v'⟩ := hd
    by_cases h : k' = k
    · subst h
      simp [mapInsert, mapLookup]
    · have hb : (k' == k) = false := by simp [h]
      simp [mapInsert, mapLookup, hb, ih]

theorem mapLookup_mapInsert_ne (m : AttrMap) (k k2 v : String) (h : k ≠ k2) :
    mapLookup (mapInsert m k v) k2 = mapLookup m k2 := by
  induction m with
  | nil => simp [mapInsert, mapLookup, h]
  | cons hd tl ih =>
    obtain ⟨k', v'⟩ := hd
    by_cases h1 : k' = k
    · subst h1
      simp [mapInsert, mapLookup, h]
    · have hb : (k' == k) = false := by simp [h1]
      simp only [mapInsert, hb, if_false, Bool.false_eq_true]
      by_cases h2 : k' = k2
      · subst h2
        simp [mapLookup]
      · have hb2 : (k' == k2) = false := by simp [h2]
        simp [mapLookup, hb2, ih]

theorem edges_addVertex (g : Graph) (n : String) :
    (addVertex g n).edges = g.edges := by
  unfold addVertex
  split <;> rfl

theorem attrs_addVertex (g : Graph) (n : String) :
    (addVertex g n).attrs = g.attrs := by
  unfold addVertex
  split <;> rfl

theorem vertexNames_updateVertex (g : Graph) (n : String) (f : AttrMap → AttrMap) :
    (updateVertex g n f).vertexNames = g.vertexNames := by
  unfold updateVertex Graph.vertexNames
  simp only [List.map_map]
  exact List.map_congr_left fun v _ => by
    by_cases h : v.1 = n <;> simp [h]

theorem mem_vertexNames_addVertex_self (g : Graph) (n : String) :
    n ∈ (addVertex g n).vertexNames := by
  unfold addVertex Graph.vertexNames
  split
  · next h =>
    obtain ⟨v, hv, hvn⟩ := List.any_eq_true.mp h
    have : v.1 = n := by simpa using hvn
    exact this ▸ List.mem_map_of_mem _ hv
  · simp

theorem mem_vertexNames_addVertex_of_mem (g : Graph) (n x : String)
    (h : x ∈ g.vertexNames) : x ∈ (addVertex g n).vertexNames := by
  unfold addVertex Graph.vertexNames
  split
  · exact h
  · simp only [List.map_append]
    exact List.mem_append_left _ h

theorem vertexNames_addEdgeWithLabel (g : Graph) (u v l : String) :
    (addEdgeWithLabel g u v l).vertexNames = g.vertexNames := rfl

theorem attrs_updateVertex (g : Graph) (n : String) (f : AttrMap → AttrMap) :
    (updateVertex g n f).attrs = g.attrs := rfl

theorem attrs_addEdgeWithLabel (g : Graph) (u v l : String) :
    (addEdgeWithLabel g u v l).attrs = g.attrs := rfl

theorem edges_updateVertex (g : Graph) (n : String) (f : AttrMap → AttrMap) :
    (updateVertex g n f).edges = g.edges := rfl

/-- The loop never touches the graph-level attributes. -/
theorem parseLoop_attrs (p : Parser) :
    ∀ (rs : List Resource) (g h : Graph), parseLoop p rs g = .ok h → h.attrs = g.attrs := by
  intro rs
  induction rs with
  | nil =>
    intro g h hh
    cases hh
    rfl
  | cons r rest ih =>
    intro g h hh
    unfold parseLoop at hh
    split at hh
    · exact ih _ _ hh
    · split at hh
      · exact absurd hh (by simp)
      · have := ih _ _ hh
        rw [this, attrs_updateVertex, attrs_addVertex]
      · have := ih _ _ hh
        rw [this, attrs_addEdgeWithLabel, attrs_addVertex, attrs_updateVertex, attrs_addVertex]

/-- Vertices only accumulate along `parseLoop`. -/
theorem parseLoop_vertexNames_mono (p : Parser) :
    ∀ (rs : List Resource) (g h : Graph) (x : String), parseLoop p rs g = .ok h →
      x ∈ g.vertexNames → x ∈ h.vertexNames := by
  intro rs
  induction rs with
  | nil =>
    intro g h x hh hx
    cases hh
    exact hx
  | cons r rest ih =>
    intro g h x hh hx
    unfold parseLoop at hh
    split at hh
    · exact ih _ _ _ hh hx
    · split at hh
      · exact absurd hh (by simp)
      · refine ih _ _ _ hh ?_
        rw [vertexNames_updateVertex]
        exact mem_vertexNames_addVertex_of_mem _ _ _ hx
      · refine ih _ _ _ hh ?_
        rw [vertexNames_addEdgeWithLabel]
        refine mem_vertexNames_addVertex_of_mem _ _ _ ?_
        rw [vertexNames_updateVertex]
        exact mem_vertexNames_addVertex_of_mem _ _ _ hx

/-- The evolution of the edge list (and of success/failure) of
`parseLoop` depends only on the starting edge list, never on the
starting vertices or attributes. -/
theorem parseLoop_edges_congr (p : Parser) :
    ∀ (rs : List Resource) (g1 g2 : Graph), g1.edges = g2.edges →
      (parseLoop p rs g1).map Graph.edges = (parseLoop p rs g2).map Graph.edges := by
  intro rs
  induction rs with
  | nil =>
    intro g1 g2 he
    simpa [parseLoop, Except.map] using he
  | cons r rest ih =>
    intro g1 g2 he
    unfold parseLoop
    split
    · exact ih _ _ he
    · split
      · simp [Except.map]
      · refine ih _ _ ?_
        rw [edges_updateVertex, edges_addVertex, edges_updateVertex, edges_addVertex]
        exact he
      · refine ih _ _ ?_
        show (addEdgeWithLabel _ _ _ _).edges = (addEdgeWithLabel _ _ _ _).edges
        unfold addEdgeWithLabel
        simp only [edges_addVertex, edges_updateVertex]
        rw [he]

/-- On the `Except` level `Parse` and `parseLoop` agree about errors and
about the edge list (`Parse` only adds the `rankdir` attribute). -/
theorem parse_map_edges (p : Parser) (rs : List Resource) :
    (Parse p rs).map Graph.edges = (parseLoop p rs emptyGraph).map Graph.edges := by
  unfold Parse
  split <;> simp_all [Except.map]

/-- If `GetOrigin` fails on some kept resource, the loop ends in an
error, whatever graph it started from. -/
theorem parseLoop_error_of_failing (p : Parser) :
    ∀ (rs : List Resource) (g : Graph),
      (∃ r e, r ∈ rs ∧ shouldDropResource p r = false ∧ r.getOrigin = .error e) →
      ∃ msg, parseLoop p rs g = .error msg := by
  intro rs
  induction rs with
  | nil =>
    intro g ⟨r, e, hmem, _, _⟩
    exact absurd hmem (by simp)
  | cons r0 rest ih =>
    intro g ⟨r, e, hmem, hdrop, herr⟩
    rcases List.mem_cons.mp hmem with heq | hmem'
    · subst heq
      unfold parseLoop
      rw [if_neg (by simp [hdrop])]
      rw [herr]
      exact ⟨e, rfl⟩
    · unfold parseLoop
      split
      · exact ih _ ⟨r, e, hmem', hdrop, herr⟩
      · split
        · exact ⟨_, rfl⟩
        · exact ih _ ⟨r, e, hmem', hdrop, herr⟩
        · exact ih _ ⟨r, e, hmem', hdrop, herr⟩

/-- The drop procedure exactly as the specification words it: the two
drop-list memberships first, then the keep decision table as a
disjunction of its three drop rows. -/
def specShouldDrop (p : Parser) (r : Resource) : Bool :=
  let kind := lower r.kind
  let ns := lower r.ns
  let keepNamespaceActive := !p.keepNamespaces.isEmpty
  let foundNamespace := p.keepNamespaces.contains ns
  let keepKindActive := !p.keepResourceKinds.isEmpty
  let foundKind := p.keepResourceKinds.contains kind
  p.dropNamespaces.contains ns ||
    (p.dropResourceKinds.contains kind ||
      ((keepNamespaceActive && !foundNamespace) ||
        ((keepNamespaceActive && keepKindActive && foundNamespace && !foundKind) ||
          (keepKindActive && !foundKind))))

/-- The switch statement of `shouldDropResource` computes the decision
table of the specification, written as an or-chain. -/
theorem shouldDropResource_eq_spec (p : Parser) (r : Resource) :
    shouldDropResource p r = specShouldDrop p r := by
  unfold shouldDropResource specShouldDrop
  cases h1 : (p.dropNamespaces.contains (lower r.ns)) <;>
    cases h2 : (p.dropResourceKinds.contains (lower r.kind)) <;>
      cases h3 : p.keepNamespaces.isEmpty <;>
        cases h4 : p.keepResourceKinds.isEmpty <;>
          cases h5 : (p.keepNamespaces.contains (lower r.ns)) <;>
            cases h6 : (p.keepResourceKinds.contains (lower r.kind)) <;>
              simp [h1, h2, h3, h4, h5, h6]

/-! ### Claims -/

/-- C1: the claim says a cluster-scoped record (empty namespace) is kept
when `keepNamespaces` is non-empty, no drop rule matches and `keepKinds`
does not exclude it.  The code disagrees: with `keepNamespaces =
["foobar"]` and no other configuration, the cluster-scoped record
`Namespace/default` is dropped (`keepNamespaceIsSet` holds and `""` is
not a member), contradicting the test of the repository itself,
`"WithKeepNamespace - should persist cluster scoped resource"`. -/
theorem c1_code_drops_clusterScoped_under_keepNamespace :
    shouldDropResource (New [WithKeepNamespace "foobar"])
      { kind := "Namespace", ns := "", name := "default", getOrigin := Except.ok none } = true := rfl

/-- C2: the function `shouldDropResource` returns true exactly when the ordered
procedure of the specification says drop: drop-namespace membership
first, then drop-kind membership, then the keep decision table
(`keepNamespaceActive ∧ ¬foundNamespace`, or `keepNamespaceActive ∧
keepKindActive ∧ foundNamespace ∧ ¬foundKind`, or `keepKindActive ∧
¬foundKind`); otherwise it returns false. -/
theorem c2_shouldDrop_matches_spec_procedure (p : Parser) (r : Resource) :
    shouldDropResource p r = specShouldDrop p r :=
  shouldDropResource_eq_spec p r

/-- C4: the function `edgeLabelFromOrigin` returns `configuredBy.apiVersion ++ "/" ++
configuredBy.kind` when `configuredIn` is non-empty; otherwise
`repo (ref ref)` when repo and ref are both non-empty, or `repo` alone
when ref is empty; otherwise the empty string. -/
theorem c4_edgeLabelFromOrigin (p : Parser) (o : Origin) :
    (o.configuredIn ≠ "" →
      edgeLabelFromOrigin p o = o.configuredBy.apiVersion ++ "/" ++ o.configuredBy.kind)
    ∧ (o.configuredIn = "" → o.repo ≠ "" → o.ref ≠ "" →
      edgeLabelFromOrigin p o = o.repo ++ " (ref " ++ o.ref ++ ")")
    ∧ (o.configuredIn = "" → o.repo ≠ "" → o.ref = "" →
      edgeLabelFromOrigin p o = o.repo)
    ∧ (o.configuredIn = "" → o.repo = "" → edgeLabelFromOrigin p o = "") := by
  refine ⟨?_, ?_, ?_, ?_⟩
  · intro h
    simp [edgeLabelFromOrigin, h]
  · intro h1 h2 h3
    simp [edgeLabelFromOrigin, h1, h2, h3]
  · intro h1 h2 h3
    simp [edgeLabelFromOrigin, h1, h2, h3]
  · intro h1 h2
    simp [edgeLabelFromOrigin, h1, h2]

/-- Witness for C4: the four example provenances of the specification,
one per branch. -/
theorem c4_edgeLabelFromOrigin_witness :
    edgeLabelFromOrigin (New [])
        { path := "foo.yaml", repo := "", ref := "", configuredIn := "foo",
          configuredBy := { apiVersion := "v1", kind := "my-generator" } }
      = "v1" ++ "/" ++ "my-generator"
    ∧ edgeLabelFromOrigin (New [])
        { path := "foo.yaml", repo := "github.com/x/y", ref := "v1", configuredIn := "",
          configuredBy := { apiVersion := "", kind := "" } }
      = "github.com/x/y" ++ " (ref " ++ "v1" ++ ")"
    ∧ edgeLabelFromOrigin (New [])
        { path := "foo.yaml", repo := "github.com/x/y", ref := "", configuredIn := "",
          configuredBy := { apiVersion := "", kind := "" } }
      = "github.com/x/y"
    ∧ edgeLabelFromOrigin (New [])
        { path := "foo.yaml", repo := "", ref := "", configuredIn := "",
          configuredBy := { apiVersion := "", kind := "" } }
      = "" :=
  ⟨(c4_edgeLabelFromOrigin _ _).1 (by decide),
   (c4_edgeLabelFromOrigin _ _).2.1 rfl (by decide) (by decide),
   (c4_edgeLabelFromOrigin _ _).2.2.1 rfl (by decide) rfl,
   (c4_edgeLabelFromOrigin _ _).2.2.2 rfl rfl⟩

/-- C5: the function `vertexNameFromResource` is `lower(kind)/name` for a
cluster-scoped record and `namespace/lower(kind)/name` otherwise; only
the kind is lower-cased. -/
theorem c5_vertexNameFromResource (p : Parser) (r : Resource) :
    (r.ns = "" → vertexNameFromResource p r = lower r.kind ++ "/" ++ r.name)
    ∧ (r.ns ≠ "" →
      vertexNameFromResource p r = r.ns ++ "/" ++ lower r.kind ++ "/" ++ r.name) := by
  constructor
  · intro h
    simp [vertexNameFromResource, h]
  · intro h
    simp [vertexNameFromResource, h]

/-- Witness for C5: one cluster-scoped and one namespaced record. -/
theorem c5_vertexNameFromResource_witness :
    vertexNameFromResource (New [])
        { kind := "Namespace", ns := "", name := "default", getOrigin := Except.ok none }
      = lower "Namespace" ++ "/" ++ "default"
    ∧ vertexNameFromResource (New [])
        { kind := "ConfigMap", ns := "default", name := "app", getOrigin := Except.ok none }
      = "default" ++ "/" ++ lower "ConfigMap" ++ "/" ++ "app" :=
  ⟨(c5_vertexNameFromResource _ _).1 rfl,
   (c5_vertexNameFromResource _ _).2 (by decide)⟩

/-- C6: the function `applyHighlights` writes the kind colour to both `color` and
`fillcolor` whenever the lower-cased kind is highlighted (this wins over
a namespace match), writes the namespace colour to both when only the
lower-cased namespace is highlighted, and returns the attribute map
unchanged when neither map matches. -/
theorem c6_applyHighlights (p : Parser) (attrs : AttrMap) (r : Resource) :
    (∀ c, mapLookup p.highlightKindMap (lower r.kind) = some c →
      mapLookup (applyHighlights p attrs r) "color" = some c ∧
      mapLookup (applyHighlights p attrs r) "fillcolor" = some c)
    ∧ (mapLookup p.highlightKindMap (lower r.kind) = none →
      ∀ c, mapLookup p.highlightNamespaceMap (lower r.ns) = some c →
        mapLookup (applyHighlights p attrs r) "color" = some c ∧
        mapLookup (applyHighlights p attrs r) "fillcolor" = some c)
    ∧ (mapLookup p.highlightKindMap (lower r.kind) = none →
      mapLookup p.highlightNamespaceMap (lower r.ns) = none →
      applyHighlights p attrs r = attrs) := by
  refine ⟨?_, ?_, ?_⟩
  · intro c hc
    simp only [applyHighlights, hc]
    refine ⟨?_, mapLookup_mapInsert_self _ _ _⟩
    rw [mapLookup_mapInsert_ne _ _ _ _ (by decide)]
    exact mapLookup_mapInsert_self _ _ _
  · intro hk c hn
    simp only [applyHighlights, hk, hn]
    refine ⟨?_, mapLookup_mapInsert_self _ _ _⟩
    rw [mapLookup_mapInsert_ne _ _ _ _ (by decide)]
    exact mapLookup_mapInsert_self _ _ _
  · intro hk hn
    simp only [applyHighlights, hk, hn]

/-- Witness for C6: one parser with a kind colour and a namespace
colour; a record matching both gets the kind colour, a record matching
only the namespace gets the namespace colour, a record matching neither
is untouched. -/
theorem c6_applyHighlights_witness :
    (mapLookup
        (applyHighlights
          (New [WithHighlightKind "Service" "red", WithHighlightNamespace "default" "blue"])
          [] { kind := "Service", ns := "default", name := "svc", getOrigin := Except.ok none })
        "color" = some "red"
      ∧ mapLookup
        (applyHighlights
          (New [WithHighlightKind "Service" "red", WithHighlightNamespace "default" "blue"])
          [] { kind := "Service", ns := "default", name := "svc", getOrigin := Except.ok none })
        "fillcolor" = some "red")
    ∧ (mapLookup
        (applyHighlights
          (New [WithHighlightKind "Service" "red", WithHighlightNamespace "default" "blue"])
          [] { kind := "ConfigMap", ns := "default", name := "cm", getOrigin := Except.ok none })
        "color" = some "blue"
      ∧ mapLookup
        (applyHighlights
          (New [WithHighlightKind "Service" "red", WithHighlightNamespace "default" "blue"])
          [] { kind := "ConfigMap", ns := "default", name := "cm", getOrigin := Except.ok none })
        "fillcolor" = some "blue")
    ∧ applyHighlights
        (New [WithHighlightKind "Service" "red", WithHighlightNamespace "default" "blue"])
        [] { kind := "ConfigMap", ns := "other", name := "cm", getOrigin := Except.ok none }
      = [] :=
  ⟨(c6_applyHighlights
      (New [WithHighlightKind "Service" "red", WithHighlightNamespace "default" "blue"])
      [] { kind := "Service", ns := "default", name := "svc", getOrigin := Except.ok none }).1
    "red" rfl,
   (c6_applyHighlights
      (New [WithHighlightKind "Service" "red", WithHighlightNamespace "default" "blue"])
      [] { kind := "ConfigMap", ns := "default", name := "cm", getOrigin := Except.ok none }).2.1
    rfl "blue" rfl,
   (c6_applyHighlights
      (New [WithHighlightKind "Service" "red", WithHighlightNamespace "default" "blue"])
      [] { kind := "ConfigMap", ns := "other", name := "cm", getOrigin := Except.ok none }).2.2
    rfl rfl⟩

/-- C3: the function `vertexNameFromOrigin` returns `configuredIn` verbatim when it
is non-empty, and otherwise (repo or not) the path stripped of the
internal `notCloned/` marker; and an all-empty provenance yields the
empty vertex name, which `Parse` still adds as a (degenerate) vertex
without error. -/
theorem c3_vertexNameFromOrigin (p : Parser) (o : Origin) (r : Resource) :
    (o.configuredIn ≠ "" → vertexNameFromOrigin p o = o.configuredIn)
    ∧ (o.configuredIn = "" → o.repo ≠ "" →
      vertexNameFromOrigin p o = trimPfx o.path notClonedMarker)
    ∧ (o.configuredIn = "" → o.repo = "" →
      vertexNameFromOrigin p o = trimPfx o.path notClonedMarker)
    ∧ (o.path = "" → o.repo = "" → o.configuredIn = "" →
      shouldDropResource p r = false → r.getOrigin = Except.ok (some o) →
      ∃ g, Parse p [r] = Except.ok g ∧ "" ∈ g.vertexNames) := by
  refine ⟨?_, ?_, ?_, ?_⟩
  · intro h
    simp [vertexNameFromOrigin, h]
  · intro h1 h2
    simp [vertexNameFromOrigin, h1, h2]
  · intro h1 h2
    simp [vertexNameFromOrigin, h1, h2]
  · intro hp hr hc hdrop horig
    have hv : vertexNameFromOrigin p o = "" := by
      simp only [vertexNameFromOrigin, hp, hr, hc]
      rfl
    have hrun : parseLoop p [r] emptyGraph =
        Except.ok (addEdgeWithLabel
          (addVertex
            (updateVertex (addVertex emptyGraph (vertexNameFromResource p r))
              (vertexNameFromResource p r) (fun attrs => applyHighlights p attrs r))
            (vertexNameFromOrigin p o))
          (vertexNameFromResource p r) (vertexNameFromOrigin p o)
          (edgeLabelFromOrigin p o)) := by
      unfold parseLoop
      rw [if_neg (by simp [hdrop]), horig]
      rfl
    refine ⟨_, by unfold Parse; rw [hrun], ?_⟩
    show "" ∈ Graph.vertexNames _
    have : Graph.vertexNames
        { addEdgeWithLabel
            (addVertex
              (updateVertex (addVertex emptyGraph (vertexNameFromResource p r))
                (vertexNameFromResource p r) (fun attrs => applyHighlights p attrs r))
              (vertexNameFromOrigin p o))
            (vertexNameFromResource p r) (vertexNameFromOrigin p o)
            (edgeLabelFromOrigin p o) with
          attrs := mapInsert
            (addEdgeWithLabel
              (addVertex
                (updateVertex (addVertex emptyGraph (vertexNameFromResource p r))
                  (vertexNameFromResource p r) (fun attrs => applyHighlights p attrs r))
                (vertexNameFromOrigin p o))
              (vertexNameFromResource p r) (vertexNameFromOrigin p o)
              (edgeLabelFromOrigin p o)).attrs "rankdir" p.layoutDirection } =
        Graph.vertexNames
          (addVertex
            (updateVertex (addVertex emptyGraph (vertexNameFromResource p r))
              (vertexNameFromResource p r) (fun attrs => applyHighlights p attrs r))
            (vertexNameFromOrigin p o)) := rfl
    rw [this]
    have h0 : ("" : String) = vertexNameFromOrigin p o := hv.symm
    rw [h0]
    exact mem_vertexNames_addVertex_self _ _

/-- Witness for C3: one origin per branch, and the all-empty provenance
flowing through `Parse` as a degenerate empty-string vertex. -/
theorem c3_vertexNameFromOrigin_witness :
    vertexNameFromOrigin (New [])
        { path := "foo.yaml", repo := "", ref := "", configuredIn := "foo",
          configuredBy := { apiVersion := "v1", kind := "my-generator" } }
      = "foo"
    ∧ vertexNameFromOrigin (New [])
        { path := "notCloned/base/app.yaml", repo := "github.com/x/y", ref := "",
          configuredIn := "", configuredBy := { apiVersion := "", kind := "" } }
      = trimPfx "notCloned/base/app.yaml" notClonedMarker
    ∧ vertexNameFromOrigin (New [])
        { path := "foo.yaml", repo := "", ref := "", configuredIn := "",
          configuredBy := { apiVersion := "", kind := "" } }
      = trimPfx "foo.yaml" notClonedMarker
    ∧ ∃ g,
        Parse (New [])
          [{ kind := "ConfigMap", ns := "", name := "cm",
             getOrigin := Except.ok (some
               { path := "", repo := "", ref := "", configuredIn := "",
                 configuredBy := { apiVersion := "", kind := "" } }) }]
          = Except.ok g ∧ "" ∈ g.vertexNames :=
  ⟨(c3_vertexNameFromOrigin (New [])
      { path := "foo.yaml", repo := "", ref := "", configuredIn := "foo",
        configuredBy := { apiVersion := "v1", kind := "my-generator" } }
      { kind := "x", ns := "", name := "x", getOrigin := Except.ok none }).1 (by decide),
   (c3_vertexNameFromOrigin (New [])
      { path := "notCloned/base/app.yaml", repo := "github.com/x/y", ref := "",
        configuredIn := "", configuredBy := { apiVersion := "", kind := "" } }
      { kind := "x", ns := "", name := "x", getOrigin := Except.ok none }).2.1 rfl (by decide),
   (c3_vertexNameFromOrigin (New [])
      { path := "foo.yaml", repo := "", ref := "", configuredIn := "",
        configuredBy := { apiVersion := "", kind := "" } }
      { kind := "x", ns := "", name := "x", getOrigin := Except.ok none }).2.2.1 rfl rfl,
   (c3_vertexNameFromOrigin (New [])
      { path := "", repo := "", ref := "", configuredIn := "",
        configuredBy := { apiVersion := "", kind := "" } }
      { kind := "ConfigMap", ns := "", name := "cm",
        getOrigin := Except.ok (some
          { path := "", repo := "", ref := "", configuredIn := "",
            configuredBy := { apiVersion := "", kind := "" } }) }).2.2.2
     rfl rfl rfl rfl rfl⟩

theorem mem_vertexNames_addVertex_iff (g : Graph) (n x : String) :
    x ∈ (addVertex g n).vertexNames ↔ (x = n ∨ x ∈ g.vertexNames) := by
  unfold addVertex
  split
  · next h =>
    constructor
    · exact fun hx => Or.inr hx
    · rintro (rfl | hx)
      · obtain ⟨v, hv, hvn⟩ := List.any_eq_true.mp h
        have hveq : v.1 = x := by simpa using hvn
        exact hveq ▸ List.mem_map_of_mem _ hv
      · exact hx
  · simp [Graph.vertexNames, or_comm]

/-- Vertex names that a run of the loop adds for a record sequence: the
resource vertex name of every kept record, plus the origin vertex name
when the record carries an origin (the failing case is irrelevant, the
loop then returns no graph). -/
def contributedNames (p : Parser) : List Resource → List String
  | [] => []
  | r :: rest =>
    if shouldDropResource p r then contributedNames p rest
    else
      match r.getOrigin with
      | .error _ => []
      | .ok none => vertexNameFromResource p r :: contributedNames p rest
      | .ok (some origin) =>
        vertexNameFromResource p r :: vertexNameFromOrigin p origin ::
          contributedNames p rest

/-- Exact vertex accounting for the loop: a name is in the final graph
exactly when it was already there or the record sequence contributes
it.  In particular a kept record with absent provenance contributes
only its resource vertex name. -/
theorem parseLoop_vertexNames_iff (p : Parser) :
    ∀ (rs : List Resource) (g h : Graph), parseLoop p rs g = .ok h →
      ∀ x, x ∈ h.vertexNames ↔ (x ∈ g.vertexNames ∨ x ∈ contributedNames p rs) := by
  intro rs
  induction rs with
  | nil =>
    intro g h e x
    cases e
    simp [contributedNames]
  | cons r0 rest ih =>
    intro g h e x
    unfold parseLoop at e
    unfold contributedNames
    split at e
    · next hd =>
      rw [if_pos hd]
      exact ih _ _ e x
    · next hd =>
      rw [if_neg hd]
      split at e
      · next heq =>
        exact absurd e (by simp)
      · next heq =>
        have hih := ih _ _ e x
        rw [hih, vertexNames_updateVertex, mem_vertexNames_addVertex_iff,
          List.mem_cons]
        tauto
      · next origin heq =>
        have hih := ih _ _ e x
        rw [hih, vertexNames_addEdgeWithLabel, mem_vertexNames_addVertex_iff,
          vertexNames_updateVertex, mem_vertexNames_addVertex_iff,
          List.mem_cons, List.mem_cons]
        tauto

/-- C7: a failing `GetOrigin` on any kept record makes `Parse` return an
error and no graph; a kept record with absent provenance contributes its
resource vertex, no origin vertex and no edge, and does not stop
processing: the vertex-name set of the result is exactly the resource
vertex name together with the vertex names produced by the remaining
records. -/
theorem c7_parse_origin_failure_and_absence (p : Parser) (rs : List Resource)
    (r : Resource) (rest : List Resource) :
    ((∃ r' e, r' ∈ rs ∧ shouldDropResource p r' = false ∧ r'.getOrigin = Except.error e) →
      ∃ msg, Parse p rs = Except.error msg)
    ∧ (shouldDropResource p r = false → r.getOrigin = Except.ok none →
      (Parse p (r :: rest)).map Graph.edges = (Parse p rest).map Graph.edges
      ∧ (∀ g, Parse p (r :: rest) = Except.ok g →
          vertexNameFromResource p r ∈ g.vertexNames)
      ∧ (∀ g g2, Parse p (r :: rest) = Except.ok g → Parse p rest = Except.ok g2 →
          ∀ x, x ∈ g.vertexNames ↔
            (x = vertexNameFromResource p r ∨ x ∈ g2.vertexNames))) := by
  constructor
  · intro hex
    obtain ⟨msg, hmsg⟩ := parseLoop_error_of_failing p rs emptyGraph hex
    exact ⟨msg, by unfold Parse; rw [hmsg]⟩
  · intro hdrop hnone
    have hstep : parseLoop p (r :: rest) emptyGraph =
        parseLoop p rest
          (updateVertex (addVertex emptyGraph (vertexNameFromResource p r))
            (vertexNameFromResource p r) (fun attrs => applyHighlights p attrs r)) := by
      conv_lhs => rw [parseLoop]
      rw [if_neg (by simp [hdrop]), hnone]
    refine ⟨?_, ?_, ?_⟩
    · calc (Parse p (r :: rest)).map Graph.edges
          = (parseLoop p (r :: rest) emptyGraph).map Graph.edges := parse_map_edges p _
        _ = (parseLoop p rest
              (updateVertex (addVertex emptyGraph (vertexNameFromResource p r))
                (vertexNameFromResource p r)
                (fun attrs => applyHighlights p attrs r))).map Graph.edges := by rw [hstep]
        _ = (parseLoop p rest emptyGraph).map Graph.edges := by
              refine parseLoop_edges_congr p rest _ _ ?_
              rw [edges_updateVertex, edges_addVertex]
        _ = (Parse p rest).map Graph.edges := (parse_map_edges p rest).symm
    · intro g hg
      unfold Parse at hg
      rw [hstep] at hg
      cases hloop : parseLoop p rest
          (updateVertex (addVertex emptyGraph (vertexNameFromResource p r))
            (vertexNameFromResource p r) (fun attrs => applyHighlights p attrs r)) with
      | error e =>
        rw [hloop] at hg
        cases hg
      | ok h =>
        rw [hloop] at hg
        cases hg
        show vertexNameFromResource p r ∈ Graph.vertexNames _
        have hmem : vertexNameFromResource p r ∈
            (updateVertex (addVertex emptyGraph (vertexNameFromResource p r))
              (vertexNameFromResource p r)
              (fun attrs => applyHighlights p attrs r)).vertexNames := by
          rw [vertexNames_updateVertex]
          exact mem_vertexNames_addVertex_self _ _
        exact parseLoop_vertexNames_mono p rest _ h _ hloop hmem
    · intro g g2 hg hg2 x
      unfold Parse at hg hg2
      rw [hstep] at hg
      cases hloop : parseLoop p rest
          (updateVertex (addVertex emptyGraph (vertexNameFromResource p r))
            (vertexNameFromResource p r) (fun attrs => applyHighlights p attrs r)) with
      | error e =>
        rw [hloop] at hg
        cases hg
      | ok h =>
        rw [hloop] at hg
        cases hg
        cases hloop2 : parseLoop p rest emptyGraph with
        | error e =>
          rw [hloop2] at hg2
          cases hg2
        | ok h2 =>
          rw [hloop2] at hg2
          cases hg2
          show x ∈ h.vertexNames ↔ (x = vertexNameFromResource p r ∨ x ∈ h2.vertexNames)
          have e1 := parseLoop_vertexNames_iff p rest _ h hloop x
          have e2 := parseLoop_vertexNames_iff p rest _ h2 hloop2 x
          rw [e1, e2, vertexNames_updateVertex, mem_vertexNames_addVertex_iff]
          have hempty : x ∈ emptyGraph.vertexNames ↔ False := by
            simp [Graph.vertexNames, emptyGraph]
          rw [hempty]
          tauto

/-- Witness for C7: a one-record sequence where provenance
extraction fails, and a one-record sequence with absent provenance. -/
theorem c7_parse_witness :
    (∃ msg,
      Parse (New [])
          [{ kind := "ConfigMap", ns := "default", name := "cm",
             getOrigin := Except.error "origin failure" }]
        = Except.error msg)
    ∧ ((Parse (New [])
          [{ kind := "ConfigMap", ns := "default", name := "cm",
             getOrigin := Except.ok none }]).map Graph.edges
        = (Parse (New []) []).map Graph.edges
      ∧ (∀ g,
          Parse (New [])
              [{ kind := "ConfigMap", ns := "default", name := "cm",
                 getOrigin := Except.ok none }]
            = Except.ok g →
          vertexNameFromResource (New [])
              { kind := "ConfigMap", ns := "default", name := "cm",
                getOrigin := Except.ok none }
            ∈ g.vertexNames)
      ∧ ("default/configmap/cm"
            ∈ (Graph.mk [("default/configmap/cm", [])] [] [("rankdir", "LR")]).vertexNames
          ↔ ("default/configmap/cm"
              = vertexNameFromResource (New [])
                  { kind := "ConfigMap", ns := "default", name := "cm",
                    getOrigin := Except.ok none }
            ∨ "default/configmap/cm"
                ∈ (Graph.mk [] [] [("rankdir", "LR")]).vertexNames))) :=
  ⟨(c7_parse_origin_failure_and_absence (New [])
      [{ kind := "ConfigMap", ns := "default", name := "cm",
         getOrigin := Except.error "origin failure" }]
      { kind := "ConfigMap", ns := "default", name := "cm", getOrigin := Except.ok none }
      []).1
    ⟨{ kind := "ConfigMap", ns := "default", name := "cm",
       getOrigin := Except.error "origin failure" }, "origin failure",
      List.mem_singleton.mpr rfl, rfl, rfl⟩,
   ((c7_parse_origin_failure_and_absence (New [])
      [{ kind := "ConfigMap", ns := "default", name := "cm",
         getOrigin := Except.error "origin failure" }]
      { kind := "ConfigMap", ns := "default", name := "cm", getOrigin := Except.ok none }
      []).2 rfl rfl).1,
   ((c7_parse_origin_failure_and_absence (New [])
      [{ kind := "ConfigMap", ns := "default", name := "cm",
         getOrigin := Except.error "origin failure" }]
      { kind := "ConfigMap", ns := "default", name := "cm", getOrigin := Except.ok none }
      []).2 rfl rfl).2.1,
   ((c7_parse_origin_failure_and_absence (New [])
      [{ kind := "ConfigMap", ns := "default", name := "cm",
         getOrigin := Except.error "origin failure" }]
      { kind := "ConfigMap", ns := "default", name := "cm", getOrigin := Except.ok none }
      []).2 rfl rfl).2.2
    (Graph.mk [("default/configmap/cm", [])] [] [("rankdir", "LR")])
    (Graph.mk [] [] [("rankdir", "LR")]) rfl rfl "default/configmap/cm"⟩

/-- An option built by one of the six non-layout constructors. -/
def isNonLayoutOption (o : ParserOption) : Prop :=
  (∃ s c, o = WithHighlightKind s c) ∨ (∃ s c, o = WithHighlightNamespace s c) ∨
    (∃ s, o = WithDropKind s) ∨ (∃ s, o = WithKeepKind s) ∨
    (∃ s, o = WithDropNamespace s) ∨ (∃ s, o = WithKeepNamespace s)

theorem foldl_layoutDirection (opts : List ParserOption)
    (h : ∀ o ∈ opts, isNonLayoutOption o) (q : Parser) :
    (opts.foldl (fun p opt => opt p) q).layoutDirection = q.layoutDirection := by
  induction opts generalizing q with
  | nil => rfl
  | cons o rest ih =>
    rw [List.foldl_cons, ih (fun o' h' => h o' (List.mem_cons_of_mem _ h'))]
    rcases h o (List.mem_cons_self _ _) with
      ⟨s, c, rfl⟩ | ⟨s, c, rfl⟩ | ⟨s, rfl⟩ | ⟨s, rfl⟩ | ⟨s, rfl⟩ | ⟨s, rfl⟩ <;> rfl

/-- C8: a successful `Parse` leaves the string form of the configured layout
string form under the graph-level `rankdir` attribute, and a `Parser`
built without a layout option has the default left-to-right
direction. -/
theorem c8_rankdir (p : Parser) (rs : List Resource) (g : Graph)
    (opts : List ParserOption) :
    (Parse p rs = Except.ok g → mapLookup g.attrs "rankdir" = some p.layoutDirection)
    ∧ ((∀ o ∈ opts, isNonLayoutOption o) →
      (New opts).layoutDirection = LayoutDirectionLR) := by
  constructor
  · intro hg
    unfold Parse at hg
    cases hrun : parseLoop p rs emptyGraph with
    | error e =>
      rw [hrun] at hg
      cases hg
    | ok h =>
      rw [hrun] at hg
      cases hg
      exact mapLookup_mapInsert_self _ _ _
  · intro h
    exact foldl_layoutDirection opts h _

/-- Witness for C8: the empty record sequence under the default parser,
and a parser configured with a single drop-kind option. -/
theorem c8_rankdir_witness :
    mapLookup (Graph.mk [] [] [("rankdir", "LR")]).attrs "rankdir"
      = some (New []).layoutDirection
    ∧ (New [WithDropKind "Service"]).layoutDirection = LayoutDirectionLR :=
  ⟨(c8_rankdir (New []) [] (Graph.mk [] [] [("rankdir", "LR")]) []).1 rfl,
   (c8_rankdir (New []) [] (Graph.mk [] [] []) [WithDropKind "Service"]).2
    (by
      intro o ho
      rw [List.mem_singleton] at ho
      subst ho
      exact Or.inr (Or.inr (Or.inl ⟨"Service", rfl⟩)))⟩

theorem contains_append_left (l1 l2 : List String) (a : String)
    (h : l1.contains a = true) : (l1 ++ l2).contains a = true := by
  have : a ∈ l1 := by simpa using h
  simp [List.mem_append, this]

/-- Extending either drop list never turns a drop into a keep (the keep
atoms are untouched and list membership is monotone under append). -/
theorem specShouldDrop_mono (p : Parser) (r : Resource) (dk dn : List String)
    (h : specShouldDrop p r = true) :
    specShouldDrop
      { p with dropResourceKinds := p.dropResourceKinds ++ dk,
               dropNamespaces := p.dropNamespaces ++ dn } r = true := by
  unfold specShouldDrop at h ⊢
  simp only [Bool.or_eq_true] at h ⊢
  rcases h with h | h | h
  · exact Or.inl (contains_append_left _ _ _ h)
  · exact Or.inr (Or.inl (contains_append_left _ _ _ h))
  · exact Or.inr (Or.inr h)

/-- C9: `shouldDropResource` is monotonic in the drop lists — appending
any entry to `dropKinds` or `dropNamespaces` (directly, or through
`WithDropKind` / `WithDropNamespace`) preserves a drop result. -/
theorem c9_shouldDrop_monotone (p : Parser) (r : Resource) (x : String)
    (h : shouldDropResource p r = true) :
    shouldDropResource { p with dropResourceKinds := p.dropResourceKinds ++ [x] } r = true
    ∧ shouldDropResource { p with dropNamespaces := p.dropNamespaces ++ [x] } r = true
    ∧ shouldDropResource (WithDropKind x p) r = true
    ∧ shouldDropResource (WithDropNamespace x p) r = true := by
  rw [shouldDropResource_eq_spec] at h
  refine ⟨?_, ?_, ?_, ?_⟩ <;> rw [shouldDropResource_eq_spec]
  · have := specShouldDrop_mono p r [x] [] h
    simpa using this
  · have := specShouldDrop_mono p r [] [x] h
    simpa using this
  · have := specShouldDrop_mono p r [lower x] [] h
    unfold WithDropKind
    simpa using this
  · have := specShouldDrop_mono p r [] [lower x] h
    unfold WithDropNamespace
    simpa using this

/-- Witness for C9: a record dropped by a drop-kind rule stays dropped
after each extension. -/
theorem c9_shouldDrop_monotone_witness :
    shouldDropResource
        { (New [WithDropKind "Service"]) with
          dropResourceKinds := (New [WithDropKind "Service"]).dropResourceKinds ++ ["foo"] }
        { kind := "Service", ns := "default", name := "svc", getOrigin := Except.ok none }
      = true
    ∧ shouldDropResource
        { (New [WithDropKind "Service"]) with
          dropNamespaces := (New [WithDropKind "Service"]).dropNamespaces ++ ["foo"] }
        { kind := "Service", ns := "default", name := "svc", getOrigin := Except.ok none }
      = true
    ∧ shouldDropResource
        (WithDropKind "foo" (New [WithDropKind "Service"]))
        { kind := "Service", ns := "default", name := "svc", getOrigin := Except.ok none }
      = true
    ∧ shouldDropResource
        (WithDropNamespace "foo" (New [WithDropKind "Service"]))
        { kind := "Service", ns := "default", name := "svc", getOrigin := Except.ok none }
      = true :=
  c9_shouldDrop_monotone (New [WithDropKind "Service"])
    { kind := "Service", ns := "default", name := "svc", getOrigin := Except.ok none }
    "foo" rfl

/-- C10: every option constructor lower-cases its string argument before
storing it, so an option built from `s` equals the option built from
`lower s`, and the configured parsers behave identically
(`shouldDropResource`, `applyHighlights`). -/
theorem c10_options_case_insensitive (s c : String) (p : Parser) (r : Resource)
    (attrs : AttrMap) :
    WithHighlightKind s c p = WithHighlightKind (lower s) c p
    ∧ WithHighlightNamespace s c p = WithHighlightNamespace (lower s) c p
    ∧ WithDropKind s p = WithDropKind (lower s) p
    ∧ WithKeepKind s p = WithKeepKind (lower s) p
    ∧ WithDropNamespace s p = WithDropNamespace (lower s) p
    ∧ WithKeepNamespace s p = WithKeepNamespace (lower s) p
    ∧ shouldDropResource (WithDropKind s p) r
      = shouldDropResource (WithDropKind (lower s) p) r
    ∧ applyHighlights (WithHighlightKind s c p) attrs r
      = applyHighlights (WithHighlightKind (lower s) c p) attrs r := by
  have h1 : WithHighlightKind s c p = WithHighlightKind (lower s) c p := by
    unfold WithHighlightKind
    rw [lower_idem]
  have h3 : WithDropKind s p = WithDropKind (lower s) p := by
    unfold WithDropKind
    rw [lower_idem]
  refine ⟨h1, ?_, h3, ?_, ?_, ?_, by rw [h3], by rw [h1]⟩
  · unfold WithHighlightNamespace
    rw [lower_idem]
  · unfold WithKeepKind
    rw [lower_idem]
  · unfold WithDropNamespace
    rw [lower_idem]
  · unfold WithKeepNamespace
    rw [lower_idem]

end KustomizeDot
